import Mathlib

/-!
Shallow embedding of `src/library/utils/index.ts` of the BLTH userscript:
a collection of small utility functions (uuid, wbi request signing,
FormData packing, deepest-leaf object iteration, DOM-lifecycle waiting).

JavaScript strings are modelled as Lean `String`s (sequences of Unicode
scalar values); where JavaScript semantics depend on UTF-16 code units
(default `Array.prototype.sort` comparison) the code-unit sequence is
computed explicitly.  Association lists `List (String × v)` model plain
objects, listed in the object's own-property enumeration order.
-/

set_option maxHeartbeats 1000000

namespace BLTH

/-- Lowercase hexadecimal digit of a nibble, as produced by JavaScript's
`Number.prototype.toString(16)` on values below 16. -/
def hexDigit (n : Nat) : Char :=
  if n < 10 then Char.ofNat (48 + n) else Char.ofNat (87 + n)

/-- Uppercase hexadecimal digit, as used by `encodeURIComponent`'s
percent-escapes. -/
def hexDigitUpper (n : Nat) : Char :=
  if n < 10 then Char.ofNat (48 + n) else Char.ofNat (55 + n)

/-- UTF-8 byte sequence of a Unicode scalar value. -/
def utf8Bytes (c : Char) : List Nat :=
  let n := c.toNat
  if n < 0x80 then [n]
  else if n < 0x800 then [0xC0 + n / 0x40, 0x80 + n % 0x40]
  else if n < 0x10000 then [0xE0 + n / 0x1000, 0x80 + n / 0x40 % 0x40, 0x80 + n % 0x40]
  else [0xF0 + n / 0x40000, 0x80 + n / 0x1000 % 0x40, 0x80 + n / 0x40 % 0x40, 0x80 + n % 0x40]

/-- UTF-16 code units of a Unicode scalar value.  JavaScript strings are
sequences of UTF-16 code units; characters at or above U+10000 become a
surrogate pair. -/
def utf16Units (c : Char) : List Nat :=
  let n := c.toNat
  if n < 0x10000 then [n]
  else [0xD800 + (n - 0x10000) / 0x400, 0xDC00 + (n - 0x10000) % 0x400]

/-- UTF-16 code-unit sequence of a JavaScript string. -/
def utf16Seq (s : String) : List Nat :=
  s.data.flatMap utf16Units

/-- Characters left unescaped by `encodeURIComponent`
(letters, digits, and `- _ . ! ~ * ' ( )`). -/
def uriUnescaped (c : Char) : Bool :=
  (65 ≤ c.toNat && c.toNat ≤ 90) || (97 ≤ c.toNat && c.toNat ≤ 122) ||
  (48 ≤ c.toNat && c.toNat ≤ 57) ||
  ['-', '_', '.', '!', '~', '*', '\'', '(', ')'].contains c

/-- Percent-escape of one byte (`%XX` with uppercase hex digits). -/
def percentByte (b : Nat) : List Char :=
  ['%', hexDigitUpper (b / 16), hexDigitUpper (b % 16)]

/-- Model of JavaScript's `encodeURIComponent`: unescaped characters are
kept, every other character is replaced by the percent-escapes of its
UTF-8 bytes.  In particular the space character encodes to `%20`. -/
def encodeURIComponent (s : String) : String :=
  String.mk (s.data.flatMap fun c => if uriUnescaped c then [c] else (utf8Bytes c).flatMap percentByte)

/-- Model of `value.replace(/[!'()*]/g, '')` from `wbiSign`: delete every
occurrence of the characters `!`, `'`, `(`, `)`, `*`. -/
def stripSpecialChars (s : String) : String :=
  String.mk (s.data.filter fun c => !(['!', '\'', '(', ')', '*'].contains c))

/-- The fixed 64-entry permutation table of `wbiSign`
(`src/library/utils/index.ts`, lines 39-43). -/
def mixinKeyEncTab : List Nat :=
  [46, 47, 18, 2, 53, 8, 23, 32, 15, 50, 10, 31, 58, 3, 45, 35, 27, 43, 5, 49, 33, 9, 42, 19, 29,
   28, 14, 39, 12, 38, 41, 13, 37, 48, 7, 16, 24, 55, 40, 61, 26, 17, 0, 1, 60, 51, 30, 4, 22, 25,
   54, 21, 56, 59, 6, 63, 57, 62, 11, 36, 20, 34, 44, 52]

/-- Salt derivation of `wbiSign` (lines 37-46): map the permutation table
over `imgKey + subKey`, join, and take the first 32 characters.
JavaScript string indexing `s[n]` yields `undefined` when `n` is out of
range, and `Array.prototype.join('')` renders `undefined` as the empty
string, so out-of-range entries contribute no character: mapping then
joining is `filterMap` of the optional lookup. -/
def wbiSalt (imgKey subKey : String) : String :=
  let imgAndSubKey := imgKey ++ subKey
  String.mk (((mixinKeyEncTab.map fun n => imgAndSubKey.data.get? n).filterMap id).take 32)

/-! MD5 (RFC 1321), used by `wbiSign` through `CryptoJS.MD5`. -/

/-- Truncation to a 32-bit word. -/
def w32 (n : Nat) : Nat := n % 4294967296

/-- Bitwise complement on 32 bits. -/
def not32 (n : Nat) : Nat := n ^^^ 0xFFFFFFFF

/-- Left rotation of a 32-bit word by `n` places. -/
def rotl32 (x n : Nat) : Nat :=
  w32 ((x % 4294967296) <<< n) ||| ((x % 4294967296) >>> (32 - n))

/-- MD5 sine-derived constant table. -/
def md5K : List Nat :=
  [0xd76aa478, 0xe8c7b756, 0x242070db, 0xc1bdceee, 0xf57c0faf, 0x4787c62a, 0xa8304613,
   0xfd469501, 0x698098d8, 0x8b44f7af, 0xffff5bb1, 0x895cd7be, 0x6b901122, 0xfd987193,
   0xa679438e, 0x49b40821, 0xf61e2562, 0xc040b340, 0x265e5a51, 0xe9b6c7aa, 0xd62f105d,
   0x02441453, 0xd8a1e681, 0xe7d3fbc8, 0x21e1cde6, 0xc33707d6, 0xf4d50d87, 0x455a14ed,
   0xa9e3e905, 0xfcefa3f8, 0x676f02d9, 0x8d2a4c8a, 0xfffa3942, 0x8771f681, 0x6d9d6122,
   0xfde5380c, 0xa4beea44, 0x4bdecfa9, 0xf6bb4b60, 0xbebfbc70, 0x289b7ec6, 0xeaa127fa,
   0xd4ef3085, 0x04881d05, 0xd9d4d039, 0xe6db99e5, 0x1fa27cf8, 0xc4ac5665, 0xf4292244,
   0x432aff97, 0xab9423a7, 0xfc93a039, 0x655b59c3, 0x8f0ccc92, 0xffeff47d, 0x85845dd1,
   0x6fa87e4f, 0xfe2ce6e0, 0xa3014314, 0x4e0811a1, 0xf7537e82, 0xbd3af235, 0x2ad7d2bb,
   0xeb86d391]

/-- MD5 per-round left-rotation amounts. -/
def md5S : List Nat :=
  [7, 12, 17, 22, 7, 12, 17, 22, 7, 12, 17, 22, 7, 12, 17, 22,
   5, 9, 14, 20, 5, 9, 14, 20, 5, 9, 14, 20, 5, 9, 14, 20,
   4, 11, 16, 23, 4, 11, 16, 23, 4, 11, 16, 23, 4, 11, 16, 23,
   6, 10, 15, 21, 6, 10, 15, 21, 6, 10, 15, 21, 6, 10, 15, 21]

/-- MD5 round mixing function for round `i`. -/
def md5F (i b c d : Nat) : Nat :=
  if i < 16 then (b &&& c) ||| (not32 b &&& d)
  else if i < 32 then (d &&& b) ||| (not32 d &&& c)
  else if i < 48 then b ^^^ c ^^^ d
  else c ^^^ (b ||| not32 d)

/-- MD5 message-word schedule for round `i`. -/
def md5G (i : Nat) : Nat :=
  if i < 16 then i
  else if i < 32 then (5 * i + 1) % 16
  else if i < 48 then (3 * i + 5) % 16
  else (7 * i) % 16

/-- One MD5 round on the state `(a, b, c, d)` with message schedule `M`. -/
def md5Round (M : Nat → Nat) (st : Nat × Nat × Nat × Nat) (i : Nat) : Nat × Nat × Nat × Nat :=
  let a := st.1
  let b := st.2.1
  let c := st.2.2.1
  let d := st.2.2.2
  let f := w32 (md5F i b c d + a + md5K.getD i 0 + M (md5G i))
  (d, w32 (b + rotl32 f (md5S.getD i 0)), b, c)

/-- Process one 64-byte chunk, adding the round result to the running state. -/
def md5ProcessChunk (st : Nat × Nat × Nat × Nat) (chunk : List Nat) : Nat × Nat × Nat × Nat :=
  let M := fun g =>
    chunk.getD (4 * g) 0 + 256 * chunk.getD (4 * g + 1) 0 +
    65536 * chunk.getD (4 * g + 2) 0 + 16777216 * chunk.getD (4 * g + 3) 0
  let r := (List.range 64).foldl (md5Round M) st
  (w32 (st.1 + r.1), w32 (st.2.1 + r.2.1), w32 (st.2.2.1 + r.2.2.1), w32 (st.2.2.2 + r.2.2.2))

/-- Split a byte list into 64-byte chunks. -/
def chunks64 (l : List Nat) : List (List Nat) :=
  if h : l = [] then [] else l.take 64 :: chunks64 (l.drop 64)
termination_by l.length
decreasing_by
  simp only [List.length_drop]
  have : 0 < l.length := List.length_pos.mpr h
  omega

/-- MD5 padding: append `0x80`, zero bytes up to 56 mod 64, then the
bit length as 8 little-endian bytes. -/
def md5Pad (msg : List Nat) : List Nat :=
  let len := msg.length
  let padLen := (119 - len % 64) % 64
  let lenBytes := (List.range 8).map fun k => 8 * len / 256 ^ k % 256
  msg ++ 0x80 :: (List.replicate padLen 0 ++ lenBytes)

/-- Little-endian byte rendering of a 32-bit word. -/
def wordLE (w : Nat) : List Nat :=
  [w % 256, w / 256 % 256, w / 65536 % 256, w / 16777216 % 256]

/-- MD5 digest (16 bytes) of a byte message. -/
def md5Bytes (msg : List Nat) : List Nat :=
  let st := (chunks64 (md5Pad msg)).foldl md5ProcessChunk
    (0x67452301, 0xefcdab89, 0x98badcfe, 0x10325476)
  wordLE st.1 ++ wordLE st.2.1 ++ wordLE st.2.2.1 ++ wordLE st.2.2.2

/-- Two lowercase hexadecimal digits of a byte. -/
def byteHex (b : Nat) : List Char :=
  [hexDigit (b / 16 % 16), hexDigit (b % 16)]

/-- Modelled from the spec: the `CryptoJS.MD5(str).toString()` call of
`wbiSign` — CryptoJS is an external library, not part of this repository.
Per the spec's external-interface section it is "an MD5 digest function
taking a string and producing a lowercase hex digest": the standard MD5
(RFC 1321) of the string's UTF-8 bytes, rendered as lowercase
hexadecimal. -/
def md5Hex (s : String) : String :=
  String.mk ((md5Bytes (s.data.flatMap utf8Bytes)).flatMap byteHex)

/-! The wbi signer `wbiSign` (`src/library/utils/index.ts`, lines 31-63). -/

/-- Values of the `params` record of `wbiSign`
(TypeScript type `Record<string, string | number | object>`). -/
inductive WbiVal where
  | str (s : String)
  | num (n : Int)
  | obj (fields : List (String × WbiVal))

/-- JavaScript `value.toString()` on a `params` value: a string is itself,
a number prints in decimal, a plain object prints as `[object Object]`. -/
def WbiVal.toStr : WbiVal → String
  | .str s => s
  | .num n => toString n
  | .obj _ => "[object Object]"

/-- JavaScript property assignment `obj[k] = v` on the association-list
model of an object: update in place when the key exists, append otherwise
(a new string key enumerates last). -/
def jsSetField (l : List (String × WbiVal)) (k : String) (v : WbiVal) :
    List (String × WbiVal) :=
  if l.any (fun p => p.1 == k) then l.map (fun p => if p.1 == k then (k, v) else p)
  else l ++ [(k, v)]

/-- Boolean lexicographic comparison of two sequences of numbers. -/
def unitsLe : List Nat → List Nat → Bool
  | [], _ => true
  | _ :: _, [] => false
  | x :: xs, y :: ys => if x < y then true else if y < x then false else unitsLe xs ys

/-- JavaScript's default string ordering, used by `Array.prototype.sort()`
on `Object.keys(params)`: lexicographic on UTF-16 code units. -/
def jsStrLe (a b : String) : Prop :=
  unitsLe (utf16Seq a) (utf16Seq b) = true

instance : DecidableRel jsStrLe := fun a b => by
  unfold jsStrLe; infer_instance

/-- String ordering by Unicode code points (what "ascending lexicographic
(code-point) order" denotes); it agrees with `jsStrLe` on strings whose
characters all lie below U+10000. -/
def cpStrLe (a b : String) : Prop :=
  unitsLe (a.data.map Char.toNat) (b.data.map Char.toNat) = true

instance : DecidableRel cpStrLe := fun a b => by
  unfold cpStrLe; infer_instance

/-- The query-building part of `wbiSign` (lines 50-58): sort the keys with
`Array.prototype.sort()`, then for each key in sorted order form
`encodeURIComponent(key)=encodeURIComponent(strippedValue)` and join the
pairs with `&`.  `insertionSort` is a correct stable sort, which is what
ECMAScript requires of `Array.prototype.sort`. -/
def wbiQuery (params : List (String × WbiVal)) : String :=
  String.intercalate "&"
    ((List.insertionSort jsStrLe (params.map Prod.fst)).map fun key =>
      let value := stripSpecialChars ((params.lookup key).getD (.str "")).toStr
      encodeURIComponent key ++ "=" ++ encodeURIComponent value)

/-- Query construction as the spec words it, for comparison with
`wbiQuery`: identical except that the keys are sorted in ascending
code-point order. -/
def wbiQueryCodepoint (params : List (String × WbiVal)) : String :=
  String.intercalate "&"
    ((List.insertionSort cpStrLe (params.map Prod.fst)).map fun key =>
      let value := stripSpecialChars ((params.lookup key).getD (.str "")).toStr
      encodeURIComponent key ++ "=" ++ encodeURIComponent value)

/-- The wbi signer `wbiSign` (lines 31-63).  The call `ts()` — the current
Unix time in whole seconds, from a module outside `src/` — is passed in
explicitly as `wts`; the function first assigns `params.wts = wts`, then
builds the sorted percent-encoded query over the updated record, and
returns the query with `&w_rid=` and the MD5 of query-plus-salt
appended. -/
def wbiSign (params : List (String × WbiVal)) (imgKey subKey : String) (wts : Nat) : String :=
  let salt := wbiSalt imgKey subKey
  let params' := jsSetField params "wts" (.num wts)
  let query := wbiQuery params'
  let sign := md5Hex (query ++ salt)
  query ++ "&w_rid=" ++ sign

/-! Plain-object trees for `deepestIterate` and `packFormData`. -/

mutual

/-- A JavaScript value as seen by `deepestIterate` and `packFormData`:
strings, numbers, booleans, `null`, `undefined`, arrays and plain objects
(fields listed in own-property enumeration order). -/
inductive JSVal where
  | str (s : String)
  | num (n : Int)
  | bool (b : Bool)
  | null
  | undef
  | arr (elems : JSList)
  | obj (fields : JSFields)

/-- Elements of a JavaScript array. -/
inductive JSList where
  | nil
  | cons (hd : JSVal) (tl : JSList)

/-- Fields of a plain object, in own-property enumeration order. -/
inductive JSFields where
  | nil
  | cons (key : String) (val : JSVal) (tl : JSFields)

end

/-- Lodash `_.isPlainObject`: true exactly for plain objects. -/
def isPlainObject : JSVal → Bool
  | .obj _ => true
  | _ => false

/-- Lodash `_.isEmpty`: true for values with no own-enumerable content —
an empty object, an empty array, an empty string, and every primitive. -/
def isEmpty : JSVal → Bool
  | .str s => s.isEmpty
  | .num _ => true
  | .bool _ => true
  | .null => true
  | .undef => true
  | .arr .nil => true
  | .arr (.cons _ _) => false
  | .obj .nil => true
  | .obj (.cons _ _ _) => false

mutual

/-- The deepest-leaf iterator `deepestIterate` (lines 82-91), with the
callback's invocations collected as a list of (value, path) pairs in
invocation order.  `_.forOwn` walks the own-enumerable fields of a plain
object; a non-object root produces no invocations (the claims quantify
over plain-object roots only). -/
def deepestIterate : JSVal → Option String → List (JSVal × String)
  | .obj fields, path => deepestIterateFields fields path
  | _, _ => []

/-- The `_.forOwn` loop of `deepestIterate` over an object's fields:
recurse into a non-empty plain object, otherwise invoke the callback with
the value and its dotted path. -/
def deepestIterateFields : JSFields → Option String → List (JSVal × String)
  | .nil, _ => []
  | .cons key val tl, path =>
    let newPath := match path with
      | some p => p ++ "." ++ key
      | none => key
    (if isPlainObject val && !isEmpty val then deepestIterate val (some newPath)
     else [(val, newPath)]) ++ deepestIterateFields tl path

end

mutual

/-- Number of leaves of a value, a leaf being — in the words of the spec —
any value that is not a non-empty plain object; a plain object at the
root contributes the leaves reachable through its fields. -/
def leafCount : JSVal → Nat
  | .obj fields => leafCountFields fields
  | _ => 0

/-- Leaf count of an object's fields. -/
def leafCountFields : JSFields → Nat
  | .nil => 0
  | .cons _ val tl =>
    (if isPlainObject val && !isEmpty val then leafCount val else 1) + leafCountFields tl

end

/-- True for `null` and `undefined`, the values without properties. -/
def isNullish : JSVal → Bool
  | .null => true
  | .undef => true
  | _ => false

mutual

/-- JavaScript `value.toString()`: throws a `TypeError` on `null` and
`undefined`, and otherwise returns the string rendering — the string
itself, decimal for numbers, `true`/`false` for booleans, the
comma-joined element renderings for arrays, `[object Object]` for plain
objects. -/
def jsToString : JSVal → Except String String
  | .null => .error "TypeError"
  | .undef => .error "TypeError"
  | .str s => .ok s
  | .num n => .ok (toString n)
  | .bool b => .ok (cond b "true" "false")
  | .arr elems => .ok (String.intercalate "," (arrStrings elems))
  | .obj _ => .ok "[object Object]"

/-- Rendering of one array element under `Array.prototype.join`: nullish
elements render as the empty string, all others by their `toString`. -/
def jsItemString : JSVal → String
  | .null => ""
  | .undef => ""
  | .str s => s
  | .num n => toString n
  | .bool b => cond b "true" "false"
  | .arr elems => String.intercalate "," (arrStrings elems)
  | .obj _ => "[object Object]"

/-- Renderings of an array's elements, for `Array.prototype.join`. -/
def arrStrings : JSList → List String
  | .nil => []
  | .cons v tl => jsItemString v :: arrStrings tl

end

/-- The FormData packer `packFormData` (lines 70-74): append each value's
`toString()` under its key in enumeration order; a `TypeError` thrown by
`value.toString()` on a nullish value propagates out of `_.forEach`, so no
carrier is returned. -/
def packFormData : JSFields → Except String (List (String × String))
  | .nil => .ok []
  | .cons key val tl =>
    match jsToString val with
    | .error e => .error e
    | .ok s =>
      match packFormData tl with
      | .error e => .error e
      | .ok rest => .ok ((key, s) :: rest)

/-! The uuid generator (lines 10-15). -/

/-- One draw of `(16 * Math.random()) | 0`: with `Math.random()` in
`[0, 1)` the result is an integer in `[0, 16)`; an arbitrary stream of
naturals is truncated into that range, so exactly the realizable draws
are modelled. -/
def randDraw (rand : Nat → Nat) (i : Nat) : Nat := rand i % 16

/-- The template traversal of `uuid`'s `replace(/[xy]/g, ...)`: each `x`
becomes the hex digit of a fresh draw, each `y` the hex digit of
`(3 & draw) | 8`, every other character is kept. -/
def uuidChars : List Char → (Nat → Nat) → Nat → List Char
  | [], _, _ => []
  | c :: cs, rand, i =>
    if c = 'x' then hexDigit (randDraw rand i) :: uuidChars cs rand (i + 1)
    else if c = 'y' then hexDigit ((3 &&& randDraw rand i) ||| 8) :: uuidChars cs rand (i + 1)
    else c :: uuidChars cs rand i

/-- The template string of `uuid`. -/
def uuidTemplate : String := "xxxxxxxx-xxxx-4xxx-yxxx-xxxxxxxxxxxx"

/-- The uuid generator `uuid` (lines 10-15), the successive values of
`(16 * Math.random()) | 0` being supplied by the stream `rand`. -/
def uuid (rand : Nat → Nat) : String :=
  String.mk (uuidChars uuidTemplate.data rand 0)

/-! The DOM-lifecycle waiter `waitForMoment` (lines 114-176). -/

/-- The document ready-state. -/
inductive ReadyState where
  | loading
  | interactive
  | complete
deriving DecidableEq

/-- The ambient document state that `waitForMoment` consults: whether
`document.head` and `document.body` exist, and `document.readyState`. -/
structure DocState where
  headPresent : Bool
  bodyPresent : Bool
  readyState : ReadyState

/-- An action performed by a registered callback: resolving the promise,
disconnecting a `MutationObserver`, or removing an event listener (the
last never occurs in this code, making its absence expressible). -/
inductive WMAction where
  | resolve
  | disconnect
  | removeListener
deriving DecidableEq

/-- Target of an `addEventListener` registration. -/
inductive EvtTarget where
  | document
  | window
deriving DecidableEq

/-- What one `waitForMoment` call does: resolve at once, register a
`MutationObserver` on `document.documentElement` (childList) with the
given callback, register an event listener (with its `once` flag, absent
in this code, hence `false`), or reject with a message. -/
inductive WaitOutcome where
  | resolved
  | observes (callback : DocState → List WMAction)
  | listens (target : EvtTarget) (eventName : String) (once : Bool)
      (callback : DocState → List WMAction)
  | rejects (message : String)

/-- The `MutationObserver` callback shape used by the `document-head` and
`document-body` branches: when the probed element exists, disconnect the
observer and resolve; otherwise do nothing. -/
def obsCb (p : DocState → Bool) : DocState → List WMAction :=
  fun s => if p s then [.disconnect, .resolve] else []

/-- The DOM-lifecycle waiter `waitForMoment` (lines 114-176), with the
`switch` modelled as an if-chain over the moment string and the promise's
behaviour reported as a `WaitOutcome` against the ambient state `st`. -/
def waitForMoment (st : DocState) (moment : String) : WaitOutcome :=
  if moment = "document-start" then .resolved
  else if moment = "document-head" then
    if st.headPresent then .resolved
    else .observes (obsCb (fun s => s.headPresent))
  else if moment = "document-body" then
    if st.bodyPresent then .resolved
    else .observes (obsCb (fun s => s.bodyPresent))
  else if moment = "document-end" then
    if st.readyState ≠ ReadyState.loading then .resolved
    else .listens .document "DOMContentLoaded" false (fun _ => [.resolve])
  else if moment = "window-load" then
    if st.readyState = ReadyState.complete then .resolved
    else .listens .window "load" false (fun _ => [.resolve])
  else .rejects "Illegal moment"

/-- Delivery of mutation events to an observer callback: each event of
the trace invokes the callback with the document state at that moment,
until an invocation disconnects the observer, after which no further
callback runs.  Returns the action lists of the delivered invocations. -/
def runObserver (cb : DocState → List WMAction) : List DocState → List (List WMAction)
  | [] => []
  | s :: rest =>
    let acts := cb s
    if acts.contains .disconnect then [acts] else acts :: runObserver cb rest

/-- Whether the call registered a subscription (observer or listener). -/
def createsSubscription : WaitOutcome → Bool
  | .observes _ => true
  | .listens _ _ _ _ => true
  | _ => false

/-- Whether the subscription registered by the call remains attached
after it fires at state `s`: an observer remains unless its callback
disconnects it, a listener remains unless it was registered with `once`
or its callback removes it.  For a call that registered nothing, there
is nothing to remain. -/
def remainsAttachedAfterFire : WaitOutcome → DocState → Bool
  | .observes cb, s => !((cb s).contains .disconnect)
  | .listens _ _ once cb, s => !once && !((cb s).contains .removeListener)
  | .resolved, _ => false
  | .rejects _, _ => false

/-! Theorems. -/

lemma filterMap_getElem?_length (S : List Char) (l : List Nat) (h : ∀ n ∈ l, n < S.length) :
    (l.filterMap fun n => S[n]?).length = l.length := by
  induction l with
  | nil => simp
  | cons a t ih =>
    have ha : a < S.length := h a (by simp)
    have : S[a]? = some (S[a]) := List.getElem?_eq_getElem ha
    simp [List.filterMap_cons, this, ih fun n hn => h n (by simp [hn])]

lemma filterMap_getElem?_get (S : List Char) (l : List Nat) (h : ∀ n ∈ l, n < S.length)
    (i : Nat) : (l.filterMap fun n => S[n]?)[i]? = (l[i]?.bind fun n => S[n]?) := by
  induction l generalizing i with
  | nil => simp
  | cons a t ih =>
    have ha : a < S.length := h a (by simp)
    have hs : S[a]? = some (S[a]) := List.getElem?_eq_getElem ha
    cases i with
    | zero => simp [List.filterMap_cons, hs]
    | succ j => simp [List.filterMap_cons, hs, ih fun n hn => h n (by simp [hn])]

/-- C1: the salt of `wbiSign` is obtained by taking, for each entry `n` of
the fixed 64-entry permutation table in table order, the character of
`S = imgKey ++ subKey` at position `n`, and truncating to the first 32
characters; there is no bounds check — an out-of-range entry simply
contributes no character (the `filterMap` below), and when `S` has at
least 64 characters all 32 positions are well defined and the `i`-th salt
character is the character of `S` at position `table[i]`. -/
theorem wbiSalt_spec (imgKey subKey : String) :
    (wbiSalt imgKey subKey).data
      = (mixinKeyEncTab.filterMap fun n => (imgKey ++ subKey).data[n]?).take 32
    ∧ (64 ≤ (imgKey ++ subKey).length →
        (wbiSalt imgKey subKey).length = 32 ∧
        ∀ i, i < 32 →
          (wbiSalt imgKey subKey).data[i]?
            = (imgKey ++ subKey).data[mixinKeyEncTab.getD i 0]?) := by
  constructor
  · simp [wbiSalt, List.filterMap_map, Function.comp]
  · intro h
    have hlen : 64 ≤ (imgKey ++ subKey).data.length := h
    have hall : ∀ n ∈ mixinKeyEncTab, n < (imgKey ++ subKey).data.length := by
      have h64 : ∀ n ∈ mixinKeyEncTab, n < 64 := by decide
      exact fun n hn => lt_of_lt_of_le (h64 n hn) hlen
    have hfl : (mixinKeyEncTab.filterMap fun n => (imgKey ++ subKey).data[n]?).length = 64 :=
      filterMap_getElem?_length _ _ hall
    have hdata : (wbiSalt imgKey subKey).data
        = (mixinKeyEncTab.filterMap fun n => (imgKey ++ subKey).data[n]?).take 32 := by
      simp [wbiSalt, List.filterMap_map, Function.comp]
    constructor
    · show (wbiSalt imgKey subKey).data.length = 32
      rw [hdata, List.length_take, hfl]
      rfl
    · intro i hi
      rw [hdata]
      have htab : mixinKeyEncTab[i]? = some (mixinKeyEncTab.getD i 0) := by
        have hilen : i < mixinKeyEncTab.length := by
          have : mixinKeyEncTab.length = 64 := by decide
          omega
        rw [List.getElem?_eq_getElem hilen, List.getD_eq_getElem?_getD,
          List.getElem?_eq_getElem hilen]
        rfl
      rw [List.getElem?_take_of_lt hi, filterMap_getElem?_get _ _ hall, htab]
      rfl

/-- Witness for C1 at two concrete 32-character keys. -/
theorem wbiSalt_spec_witness :
    64 ≤ (("7cd084941338484aae1ad9425b84077c" : String)
        ++ "4932caff0ff746eab6f01bf08b70ac45").length
    ∧ (wbiSalt "7cd084941338484aae1ad9425b84077c" "4932caff0ff746eab6f01bf08b70ac45").length = 32
    ∧ (wbiSalt "7cd084941338484aae1ad9425b84077c" "4932caff0ff746eab6f01bf08b70ac45").data[5]?
        = (("7cd084941338484aae1ad9425b84077c" : String)
            ++ "4932caff0ff746eab6f01bf08b70ac45").data[mixinKeyEncTab.getD 5 0]? := by
  have h : 64 ≤ (("7cd084941338484aae1ad9425b84077c" : String)
      ++ "4932caff0ff746eab6f01bf08b70ac45").length := by decide
  have hs := (wbiSalt_spec "7cd084941338484aae1ad9425b84077c"
    "4932caff0ff746eab6f01bf08b70ac45").2 h
  exact ⟨h, hs.1, hs.2 5 (by norm_num)⟩

/-- The sixteen lowercase hexadecimal digits. -/
def hexDigitChars : List Char :=
  (List.range 16).map hexDigit

lemma byteHex_all_hex (b : Nat) :
    ((byteHex b).all fun c => hexDigitChars.contains c) = true := by
  have key : ∀ n < 16, hexDigitChars.contains (hexDigit n) = true := by decide
  have h1 : b / 16 % 16 < 16 := Nat.mod_lt _ (by norm_num)
  have h2 : b % 16 < 16 := Nat.mod_lt _ (by norm_num)
  show ([hexDigit (b / 16 % 16), hexDigit (b % 16)].all fun c => hexDigitChars.contains c) = true
  rw [List.all_cons, List.all_cons, List.all_nil, key _ h1, key _ h2]
  rfl

lemma flatMap_byteHex_length (bytes : List Nat) :
    (bytes.flatMap byteHex).length = 2 * bytes.length := by
  induction bytes with
  | nil => simp
  | cons b t ih => simp [List.flatMap_cons, byteHex, ih]; omega

lemma flatMap_byteHex_all_hex (bytes : List Nat) :
    ((bytes.flatMap byteHex).all fun c => hexDigitChars.contains c) = true := by
  induction bytes with
  | nil => simp
  | cons b t ih =>
    simp only [List.flatMap_cons, List.all_append, ih, byteHex_all_hex, Bool.and_self]

lemma md5Bytes_length (msg : List Nat) : (md5Bytes msg).length = 16 := by
  simp [md5Bytes, wordLE]

lemma md5Hex_length (s : String) : (md5Hex s).length = 32 := by
  show ((md5Bytes (s.data.flatMap utf8Bytes)).flatMap byteHex).length = 32
  rw [flatMap_byteHex_length, md5Bytes_length]

lemma md5Hex_all_hex (s : String) :
    ((md5Hex s).data.all fun c => hexDigitChars.contains c) = true := by
  show (((md5Bytes (s.data.flatMap utf8Bytes)).flatMap byteHex).all
    fun c => hexDigitChars.contains c) = true
  exact flatMap_byteHex_all_hex _

/-- C3: the string `wbiSign` returns is `query + "&w_rid=" + sign`, where
`query` is the sorted percent-encoded query over the params with `wts`
injected and `sign` is the MD5 of `query + salt` rendered as lowercase
hexadecimal; that appended signature consists of exactly 32 lowercase
hexadecimal characters. -/
theorem wbiSign_shape (params : List (String × WbiVal)) (imgKey subKey : String) (wts : Nat) :
    wbiSign params imgKey subKey wts
      = wbiQuery (jsSetField params "wts" (.num wts)) ++ "&w_rid="
        ++ md5Hex (wbiQuery (jsSetField params "wts" (.num wts)) ++ wbiSalt imgKey subKey)
    ∧ (md5Hex (wbiQuery (jsSetField params "wts" (.num wts)) ++ wbiSalt imgKey subKey)).length
        = 32
    ∧ ((md5Hex (wbiQuery (jsSetField params "wts" (.num wts))
          ++ wbiSalt imgKey subKey)).data.all fun c => hexDigitChars.contains c) = true :=
  ⟨rfl, md5Hex_length _, md5Hex_all_hex _⟩

lemma unitsLe_total : ∀ a b : List Nat, unitsLe a b = true ∨ unitsLe b a = true
  | [], _ => by left; rfl
  | _ :: _, [] => by right; rfl
  | x :: xs, y :: ys => by
    rcases Nat.lt_trichotomy x y with h | h | h
    · left; simp [unitsLe, h]
    · subst h
      rcases unitsLe_total xs ys with ih | ih
      · left; simp [unitsLe, ih]
      · right; simp [unitsLe, ih]
    · right; simp [unitsLe, h]

lemma unitsLe_trans : ∀ a b c : List Nat,
    unitsLe a b = true → unitsLe b c = true → unitsLe a c = true
  | [], _, _ => by intro _ _; rfl
  | x :: xs, [], _ => by intro h _; simp [unitsLe] at h
  | _ :: _, _ :: _, [] => by intro _ h; simp [unitsLe] at h
  | x :: xs, y :: ys, z :: zs => by
    intro h1 h2
    rcases Nat.lt_trichotomy x y with hxy | hxy | hxy
    · rcases Nat.lt_trichotomy y z with hyz | hyz | hyz
      · simp [unitsLe, Nat.lt_trans hxy hyz]
      · subst hyz; simp [unitsLe, hxy]
      · simp [unitsLe, hyz, Nat.lt_asymm hyz, Nat.lt_irrefl] at h2
    · subst hxy
      rcases Nat.lt_trichotomy x z with hyz | hyz | hyz
      · simp [unitsLe, hyz]
      · subst hyz
        simp only [unitsLe, Nat.lt_irrefl, if_false] at h1 h2 ⊢
        exact unitsLe_trans xs ys zs h1 h2
      · simp [unitsLe, hyz, Nat.lt_asymm hyz, Nat.lt_irrefl] at h2
    · simp [unitsLe, hxy, Nat.lt_asymm hxy, Nat.lt_irrefl] at h1

instance : IsTotal String jsStrLe :=
  ⟨fun a b => unitsLe_total (utf16Seq a) (utf16Seq b)⟩

instance : IsTrans String jsStrLe :=
  ⟨fun _ _ _ => unitsLe_trans _ _ _⟩

/-- C2 (amended): for every params record, the query built by `wbiSign`
takes all keys of the record sorted in ascending order of their UTF-16
code-unit sequences (JavaScript's default `sort()` comparison, which is
code-point order whenever every key character lies below U+10000), and
for each key in that order forms
`encodeURIComponent(key)=encodeURIComponent(value)`, where `value` is
the key's value converted to its string representation with every
occurrence of the characters `!`, `'`, `(`, `)`, `*` removed, and joins
the pairs with `&`. -/
theorem wbiQuery_spec (params : List (String × WbiVal)) :
    ∃ sortedKeys : List String,
      List.Sorted jsStrLe sortedKeys ∧
      sortedKeys.Perm (params.map Prod.fst) ∧
      wbiQuery params = String.intercalate "&" (sortedKeys.map fun key =>
        encodeURIComponent key ++ "="
          ++ encodeURIComponent (stripSpecialChars ((params.lookup key).getD (.str "")).toStr)) :=
  ⟨List.insertionSort jsStrLe (params.map Prod.fst),
    List.sorted_insertionSort jsStrLe _,
    List.perm_insertionSort jsStrLe _,
    rfl⟩

/-- C2 (counterexample): sorting the keys in ascending code-point order,
as the claim words it, is not what the code computes.  With the two keys
U+FF61 (code point 65377, one UTF-16 unit `0xFF61`) and U+10000 (code
point 65536, surrogate pair `0xD800 0xDC00`), JavaScript's default
`sort()` puts U+10000 first (`0xD800 < 0xFF61`) while code-point order
puts U+FF61 first, and the resulting query strings differ. -/
theorem wbiQuery_codepoint_counterexample :
    wbiQuery [(String.mk [Char.ofNat 0xFF61], WbiVal.str "1"),
              (String.mk [Char.ofNat 0x10000], WbiVal.str "2")]
      = "%F0%90%80%80=2&%EF%BD%A1=1"
    ∧ wbiQueryCodepoint [(String.mk [Char.ofNat 0xFF61], WbiVal.str "1"),
              (String.mk [Char.ofNat 0x10000], WbiVal.str "2")]
      = "%EF%BD%A1=1&%F0%90%80%80=2"
    ∧ wbiQuery [(String.mk [Char.ofNat 0xFF61], WbiVal.str "1"),
              (String.mk [Char.ofNat 0x10000], WbiVal.str "2")]
      ≠ wbiQueryCodepoint [(String.mk [Char.ofNat 0xFF61], WbiVal.str "1"),
              (String.mk [Char.ofNat 0x10000], WbiVal.str "2")] := by
  refine ⟨by decide, by decide, by decide⟩

lemma lookup_map_replace (l : List (String × WbiVal)) (k : String) (v : WbiVal) :
    ∀ _ : l.any (fun p => p.1 == k) = true,
      (l.map fun p => if p.1 == k then (k, v) else p).lookup k = some v := by
  induction l with
  | nil => intro h; simp at h
  | cons p t ih =>
    intro h
    obtain ⟨pk, pv⟩ := p
    by_cases hp : pk = k
    · subst hp
      have hcond : ((pk, pv).1 == pk) = true := by simp
      simp only [List.map_cons]
      rw [if_pos hcond, List.lookup_cons_self]
    · have hcond : ((pk, pv).1 == k) = false := by simp [hp]
      have ht : t.any (fun p => p.1 == k) = true := by
        simpa [hcond] using h
      have hkp : (k == pk) = false := by simp [Ne.symm hp]
      simp only [List.map_cons]
      rw [if_neg (by simp [hcond]), List.lookup_cons, hkp]
      exact ih ht

lemma lookup_map_replace_other (l : List (String × WbiVal)) (k : String) (v : WbiVal)
    (k' : String) (hk : k' ≠ k) :
    (l.map fun p => if p.1 == k then (k, v) else p).lookup k' = l.lookup k' := by
  induction l with
  | nil => rfl
  | cons p t ih =>
    obtain ⟨pk, pv⟩ := p
    by_cases hp : pk = k
    · subst hp
      have h1 : (k' == pk) = false := by simp [hk]
      have hcond : ((pk, pv).1 == pk) = true := by simp
      simp only [List.map_cons]
      rw [if_pos hcond, List.lookup_cons, List.lookup_cons, h1]
      exact ih
    · have hcond : ((pk, pv).1 == k) = false := by simp [hp]
      simp only [List.map_cons]
      rw [if_neg (by simp [hcond]), List.lookup_cons, List.lookup_cons]
      cases hkk : k' == pk
      · exact ih
      · rfl

lemma lookup_append_single (l : List (String × WbiVal)) (k : String) (v : WbiVal) :
    ∀ _ : l.any (fun p => p.1 == k) = false,
      (l ++ [(k, v)]).lookup k = some v := by
  induction l with
  | nil => intro _; simp
  | cons p t ih =>
    intro h
    obtain ⟨pk, pv⟩ := p
    have hcond : (pk == k) = false := by
      rcases List.any_eq_false.mp h (pk, pv) (by simp) with hc
      simpa using hc
    have ht : t.any (fun p => p.1 == k) = false := by
      rcases List.any_cons .. ▸ h with h2
      simpa [hcond] using h2
    have h1 : (k == pk) = false := by
      rcases beq_eq_false_iff_ne.mp hcond with hne
      exact beq_eq_false_iff_ne.mpr (Ne.symm hne)
    rw [List.cons_append, List.lookup_cons, h1]
    exact ih ht

lemma lookup_append_single_other (l : List (String × WbiVal)) (k : String) (v : WbiVal)
    (k' : String) (hk : k' ≠ k) :
    (l ++ [(k, v)]).lookup k' = l.lookup k' := by
  induction l with
  | nil =>
    have h1 : (k' == k) = false := by simp [hk]
    simp only [List.nil_append, List.lookup_nil, List.lookup_cons, h1]
  | cons p t ih =>
    obtain ⟨pk, pv⟩ := p
    rw [List.cons_append, List.lookup_cons, List.lookup_cons]
    cases hkk : k' == pk
    · exact ih
    · rfl

/-- C4: the effect of `params.wts = ts()` (line 48) on the params record:
afterwards `wts` is bound to the injected whole-second Unix timestamp;
every other key keeps exactly the binding it had before; and when `wts`
was not already a key of the record, the key list afterwards is the old
key list with `wts` appended — exactly one field added, none removed. -/
theorem wbiSign_injects_wts (params : List (String × WbiVal)) (wts : Nat) :
    (jsSetField params "wts" (.num wts)).lookup "wts" = some (.num (wts : Int))
    ∧ (∀ k, k ≠ "wts" →
        (jsSetField params "wts" (.num wts)).lookup k = params.lookup k)
    ∧ ("wts" ∉ params.map Prod.fst →
        (jsSetField params "wts" (.num wts)).map Prod.fst
          = params.map Prod.fst ++ ["wts"]) := by
  refine ⟨?_, ?_, ?_⟩
  · unfold jsSetField
    split_ifs with h
    · exact lookup_map_replace _ _ _ h
    · refine lookup_append_single _ _ _ ?_
      simp only [Bool.not_eq_true] at h
      exact h
  · intro k hk
    unfold jsSetField
    split_ifs with h
    · exact lookup_map_replace_other _ _ _ _ hk
    · exact lookup_append_single_other _ _ _ _ hk
  · intro h
    have hany : params.any (fun p => p.1 == "wts") = false := by
      rw [List.any_eq_false]
      rintro ⟨pk, pv⟩ hp
      simp only [beq_iff_eq]
      rintro rfl
      exact h (List.mem_map_of_mem Prod.fst hp)
    simp [jsSetField, hany]

/-- Witness for C4 at a concrete record. -/
theorem wbiSign_injects_wts_witness :
    (jsSetField [("a", WbiVal.str "x")] "wts" (.num 7)).lookup "wts" = some (.num 7)
    ∧ (jsSetField [("a", WbiVal.str "x")] "wts" (.num 7)).lookup "a" = some (.str "x")
    ∧ (jsSetField [("a", WbiVal.str "x")] "wts" (.num 7)).map Prod.fst = ["a", "wts"] := by
  obtain ⟨h1, h2, h3⟩ := wbiSign_injects_wts [("a", WbiVal.str "x")] 7
  refine ⟨h1, ?_, ?_⟩
  · exact (h2 "a" (by decide)).trans rfl
  · exact (h3 (by decide)).trans rfl

/-- C5: `waitForMoment` rejects with the literal string `"Illegal moment"`
exactly on inputs other than the five moments, and this rejection is the
only failure: whatever the ambient document state, a rejection outcome
implies the input was not one of the five moments and carries exactly
that message. -/
theorem waitForMoment_illegal (st : DocState) (m : String) :
    (waitForMoment st m = .rejects "Illegal moment" ↔
      m ∉ ["document-start", "document-head", "document-body", "document-end", "window-load"])
    ∧ (∀ msg, waitForMoment st m = .rejects msg → msg = "Illegal moment") := by
  unfold waitForMoment
  split_ifs <;> simp_all

/-- Witness for C5 at a concrete state and an unrecognized moment. -/
theorem waitForMoment_illegal_witness :
    waitForMoment ⟨false, false, .loading⟩ "nonsense" = .rejects "Illegal moment"
    ∧ "Illegal moment" = "Illegal moment" := by
  have h := (waitForMoment_illegal ⟨false, false, .loading⟩ "nonsense").1.mpr (by decide)
  exact ⟨h, (waitForMoment_illegal ⟨false, false, .loading⟩ "nonsense").2 "Illegal moment" h⟩

/-- C6: `document-end` resolves immediately — registering nothing —
exactly when the document ready-state is not `loading`, and otherwise
registers a single `DOMContentLoaded` listener; `window-load` resolves
immediately exactly when the ready-state is `complete`, and otherwise
registers a single `load` listener. -/
theorem waitForMoment_end_load (st : DocState) :
    (waitForMoment st "document-end" = .resolved ↔ st.readyState ≠ .loading)
    ∧ (st.readyState = .loading →
        waitForMoment st "document-end"
          = .listens .document "DOMContentLoaded" false (fun _ => [.resolve]))
    ∧ (waitForMoment st "window-load" = .resolved ↔ st.readyState = .complete)
    ∧ (st.readyState ≠ .complete →
        waitForMoment st "window-load"
          = .listens .window "load" false (fun _ => [.resolve])) := by
  obtain ⟨hd, bd, rs⟩ := st
  cases rs <;> simp [waitForMoment]

/-- Witness for C6 in the loading state. -/
theorem waitForMoment_end_load_witness :
    waitForMoment ⟨true, true, .loading⟩ "document-end"
      = .listens .document "DOMContentLoaded" false (fun _ => [.resolve])
    ∧ waitForMoment ⟨true, true, .loading⟩ "window-load"
      = .listens .window "load" false (fun _ => [.resolve]) := by
  have h := waitForMoment_end_load ⟨true, true, .loading⟩
  exact ⟨h.2.1 rfl, h.2.2.2 (by decide)⟩

/-- C7 (counterexample): not every subscription created by
`waitForMoment` detaches itself once its condition fires.  In the
loading state, `waitForMoment "document-end"` registers a
`DOMContentLoaded` listener whose callback only resolves — the code
removes no listener and passes no `once` option — so the subscription
remains attached after the event has fired. -/
theorem waitForMoment_listener_remains :
    createsSubscription (waitForMoment ⟨true, true, .loading⟩ "document-end") = true
    ∧ remainsAttachedAfterFire (waitForMoment ⟨true, true, .loading⟩ "document-end")
        ⟨true, true, .interactive⟩ = true :=
  ⟨rfl, rfl⟩

lemma flatten_map_nil {α β : Type} (l : List α) :
    (l.map fun _ => ([] : List β)).flatten = [] := by
  induction l with
  | nil => rfl
  | cons _ _ ih => simp [ih]

/-- C7 (amended): the structural-mutation observers the waiter registers
for `document-head` and `document-body` are one-shot: the observer probes
for the awaited element and, on the first mutation event in whose state
the element exists, disconnects itself and resolves — exactly one
disconnect, delivered precisely on that triggering event, and no callback
of the observer runs afterwards; for events before it the callback does
nothing.  (The `DOMContentLoaded`/`load` event listeners, by contrast,
resolve without detaching — the counterexample above.) -/
theorem observer_one_shot (st : DocState) (p : DocState → Bool) (trace : List DocState) :
    (st.headPresent = false →
      waitForMoment st "document-head" = .observes (obsCb fun s => s.headPresent))
    ∧ (st.bodyPresent = false →
      waitForMoment st "document-body" = .observes (obsCb fun s => s.bodyPresent))
    ∧ runObserver (obsCb p) trace
        = (trace.takeWhile fun s => !p s).map (fun _ => ([] : List WMAction))
          ++ (if trace.any p then [[.disconnect, .resolve]] else [])
    ∧ ((runObserver (obsCb p) trace).flatten.count .disconnect
        = if trace.any p then 1 else 0) := by
  have h3 : runObserver (obsCb p) trace
      = (trace.takeWhile fun s => !p s).map (fun _ => ([] : List WMAction))
        ++ (if trace.any p then [[.disconnect, .resolve]] else []) := by
    induction trace with
    | nil => rfl
    | cons s rest ih =>
      by_cases hp : p s
      · simp [runObserver, obsCb, hp]
      · simp [runObserver, obsCb, hp, ih]
  refine ⟨?_, ?_, h3, ?_⟩
  · intro h
    simp [waitForMoment, h]
  · intro h
    simp [waitForMoment, h]
  · rw [h3]
    by_cases ha : trace.any p
    · simp [ha, flatten_map_nil]
    · simp [ha, flatten_map_nil]

/-- Witness for C7's amended theorem: a head observer in a state without
a head, on a two-event trace where the head appears at the second
event. -/
theorem observer_one_shot_witness :
    waitForMoment ⟨false, false, .loading⟩ "document-head"
      = .observes (obsCb fun s => s.headPresent)
    ∧ runObserver (obsCb fun s => s.headPresent)
        [⟨false, false, .loading⟩, ⟨true, false, .loading⟩]
      = [[], [.disconnect, .resolve]] := by
  have h := observer_one_shot ⟨false, false, .loading⟩ (fun s => s.headPresent)
    [⟨false, false, .loading⟩, ⟨true, false, .loading⟩]
  exact ⟨h.1 rfl, (h.2.2.1).trans (by decide)⟩

mutual

lemma deepestIterate_length : ∀ (v : JSVal) (path : Option String),
    (deepestIterate v path).length = leafCount v
  | .obj fields, path => by
    simp only [deepestIterate, leafCount]
    exact deepestIterateFields_length fields path
  | .str _, _ => rfl
  | .num _, _ => rfl
  | .bool _, _ => rfl
  | .null, _ => rfl
  | .undef, _ => rfl
  | .arr _, _ => rfl

lemma deepestIterateFields_length : ∀ (fs : JSFields) (path : Option String),
    (deepestIterateFields fs path).length = leafCountFields fs
  | .nil, _ => rfl
  | .cons key val tl, path => by
    by_cases hv : (isPlainObject val && !isEmpty val) = true
    · simp only [deepestIterateFields, leafCountFields, hv, if_true, List.length_append,
        deepestIterate_length val _, deepestIterateFields_length tl path]
    · have hv' : (isPlainObject val && !isEmpty val) = false := by
        simpa using hv
      simp only [deepestIterateFields, leafCountFields, hv', Bool.false_eq_true, if_false,
        List.length_append, List.length_singleton, deepestIterateFields_length tl path]

end

mutual

lemma deepestIterate_leaves : ∀ (v : JSVal) (path : Option String) (x : JSVal × String),
    x ∈ deepestIterate v path → (isPlainObject x.1 && !isEmpty x.1) = false
  | .obj fields, path, x => fun hx => deepestIterateFields_leaves fields path x hx
  | .str _, _, _ => by intro hx; simp [deepestIterate] at hx
  | .num _, _, _ => by intro hx; simp [deepestIterate] at hx
  | .bool _, _, _ => by intro hx; simp [deepestIterate] at hx
  | .null, _, _ => by intro hx; simp [deepestIterate] at hx
  | .undef, _, _ => by intro hx; simp [deepestIterate] at hx
  | .arr _, _, _ => by intro hx; simp [deepestIterate] at hx

lemma deepestIterateFields_leaves : ∀ (fs : JSFields) (path : Option String) (x : JSVal × String),
    x ∈ deepestIterateFields fs path → (isPlainObject x.1 && !isEmpty x.1) = false
  | .nil, _, _ => by intro hx; simp [deepestIterateFields] at hx
  | .cons key val tl, path, x => by
    intro hx
    simp only [deepestIterateFields, List.mem_append] at hx
    rcases hx with hx | hx
    · by_cases hv : (isPlainObject val && !isEmpty val) = true
      · rw [if_pos hv] at hx
        exact deepestIterate_leaves val _ x hx
      · rw [if_neg hv] at hx
        have hxe : x = (val, _) := List.mem_singleton.mp hx
        rw [hxe]
        simpa using hv
    · exact deepestIterateFields_leaves tl path x hx

end

/-- The plain-object tree of the claim's concrete example,
`{a: {b: 1, c: {}}, d: 2}`. -/
def exampleFields : JSFields :=
  .cons "a" (.obj (.cons "b" (.num 1) (.cons "c" (.obj .nil) .nil)))
    (.cons "d" (.num 2) .nil)

/-- C8: `deepestIterate` invokes the callback exactly once per leaf — its
invocation count equals the number of values in the tree that are not
non-empty plain objects — and every invocation passes a leaf (never a
non-empty plain object), with its dotted path from the root; arrays and
empty plain objects count as leaves; a root without own-enumerable
properties produces zero invocations; and on `{a:{b:1,c:{}},d:2}` the
callback runs exactly three times, with `(1,"a.b")`, `({},"a.c")` and
`(2,"d")` in enumeration order. -/
theorem deepestIterate_spec :
    (∀ (fields : JSFields) (x : JSVal × String),
        x ∈ deepestIterate (.obj fields) none → (isPlainObject x.1 && !isEmpty x.1) = false)
    ∧ (∀ v : JSVal, (deepestIterate v none).length = leafCount v)
    ∧ (∀ es : JSList, (isPlainObject (JSVal.arr es) && !isEmpty (JSVal.arr es)) = false)
    ∧ (isPlainObject (JSVal.obj .nil) && !isEmpty (JSVal.obj .nil)) = false
    ∧ deepestIterate (.obj .nil) none = []
    ∧ deepestIterate (.obj exampleFields) none
        = [(.num 1, "a.b"), (.obj .nil, "a.c"), (.num 2, "d")] :=
  ⟨fun fields x hx => deepestIterate_leaves (.obj fields) none x hx,
    fun v => deepestIterate_length v none,
    fun _ => rfl,
    rfl,
    rfl,
    rfl⟩

/-- Witness for C8 at the example tree. -/
theorem deepestIterate_spec_witness :
    (isPlainObject (JSVal.num 1) && !isEmpty (JSVal.num 1)) = false
    ∧ (deepestIterate (.obj exampleFields) none).length = leafCount (.obj exampleFields) := by
  have hmem : ((JSVal.num 1 : JSVal), "a.b") ∈ deepestIterate (.obj exampleFields) none := by
    have e : deepestIterate (.obj exampleFields) none
        = [(.num 1, "a.b"), (.obj .nil, "a.c"), (.num 2, "d")] := rfl
    rw [e]
    exact List.mem_cons_self _ _
  exact ⟨deepestIterate_spec.1 exampleFields (.num 1, "a.b") hmem,
    deepestIterate_spec.2.1 (.obj exampleFields)⟩

/-- A character class of the uuid pattern: any lowercase hex digit, a
variant digit (one of `8`, `9`, `a`, `b`), or a fixed literal. -/
inductive UuidClass where
  | hex
  | variant
  | lit (c : Char)
deriving DecidableEq

/-- The class a template character produces: `x` a hex digit, `y` a
variant digit, anything else itself. -/
def classOf (c : Char) : UuidClass :=
  if c = 'x' then .hex else if c = 'y' then .variant else .lit c

/-- Whether a character belongs to a class. -/
def matchesClass : UuidClass → Char → Bool
  | .hex, c => hexDigitChars.contains c
  | .variant, c => ['8', '9', 'a', 'b'].contains c
  | .lit l, c => c == l

/-- Pointwise match of a character list against a class list (equal
lengths required). -/
def matchesClasses : List UuidClass → List Char → Bool
  | [], [] => true
  | [], _ :: _ => false
  | _ :: _, [] => false
  | cl :: cls, c :: cs => matchesClass cl c && matchesClasses cls cs

/-- The pattern of the claim,
`[0-9a-f]\x7b8\x7d-[0-9a-f]\x7b4\x7d-4[0-9a-f]\x7b3\x7d-[89ab][0-9a-f]\x7b3\x7d-[0-9a-f]\x7b12\x7d`,
as a class list. -/
def uuidPattern : List UuidClass :=
  List.replicate 8 .hex ++ [.lit '-'] ++ List.replicate 4 .hex ++ [.lit '-', .lit '4']
    ++ List.replicate 3 .hex ++ [.lit '-', .variant] ++ List.replicate 3 .hex
    ++ [.lit '-'] ++ List.replicate 12 .hex

lemma hexDigit_matches_hex (n : Nat) (h : n < 16) :
    matchesClass .hex (hexDigit n) = true := by
  have key : ∀ m < 16, (hexDigitChars.contains (hexDigit m)) = true := by decide
  exact key n h

lemma variant_digit_matches (n : Nat) :
    matchesClass .variant (hexDigit ((3 &&& n) ||| 8)) = true := by
  have key : ∀ m < 4, matchesClass .variant (hexDigit (m ||| 8)) = true := by decide
  rw [Nat.and_comm]
  exact key _ (lt_of_le_of_lt Nat.and_le_right (by norm_num))

lemma uuidChars_matches : ∀ (cs : List Char) (rand : Nat → Nat) (i : Nat),
    matchesClasses (cs.map classOf) (uuidChars cs rand i) = true
  | [], _, _ => rfl
  | c :: cs, rand, i => by
    by_cases hx : c = 'x'
    · subst hx
      have hdraw : randDraw rand i < 16 := Nat.mod_lt _ (by norm_num)
      simp only [List.map_cons, uuidChars, classOf, if_pos rfl, if_true, matchesClasses,
        hexDigit_matches_hex _ hdraw, Bool.true_and]
      exact uuidChars_matches cs rand (i + 1)
    · by_cases hy : c = 'y'
      · subst hy
        have h1 : uuidChars ('y' :: cs) rand i
            = hexDigit ((3 &&& randDraw rand i) ||| 8) :: uuidChars cs rand (i + 1) := by
          simp [uuidChars]
        have h2 : ('y' :: cs).map classOf = UuidClass.variant :: cs.map classOf := by
          simp [classOf]
        rw [h1, h2]
        simp only [matchesClasses, variant_digit_matches, Bool.true_and]
        exact uuidChars_matches cs rand (i + 1)
      · simp only [List.map_cons, uuidChars, classOf, hx, hy, if_false, matchesClasses,
          matchesClass, beq_self_eq_true, Bool.true_and]
        exact uuidChars_matches cs rand i

/-- C9: every string `uuid` returns matches the pattern
`[0-9a-f]\x7b8\x7d-[0-9a-f]\x7b4\x7d-4[0-9a-f]\x7b3\x7d-[89ab][0-9a-f]\x7b3\x7d-[0-9a-f]\x7b12\x7d`:
each `x` position of the template becomes the lowercase hex digit of one
random draw from `[0, 16)`, the version nibble is the literal `4` of the
template, and the `y` position becomes the hex digit of
`(3 & draw) | 8`, which always lies in `8..b` — whatever the values the
random source yields. -/
theorem uuid_matches_pattern (rand : Nat → Nat) :
    matchesClasses uuidPattern (uuid rand).data = true := by
  have h1 : uuidTemplate.data.map classOf = uuidPattern := by decide
  have h2 := uuidChars_matches uuidTemplate.data rand 0
  rw [h1] at h2
  exact h2

/-- True when some field of the record binds a nullish value. -/
def hasNullish : JSFields → Bool
  | .nil => false
  | .cons _ val tl => isNullish val || hasNullish tl

lemma jsToString_error_iff : ∀ v : JSVal,
    jsToString v = .error "TypeError" ↔ isNullish v = true := by
  intro v
  cases v <;> simp [jsToString, isNullish]

lemma packFormData_error_iff : ∀ json : JSFields,
    packFormData json = .error "TypeError" ↔ hasNullish json = true
  | .nil => by simp [packFormData, hasNullish]
  | .cons key val tl => by
    rw [hasNullish]
    by_cases hv : isNullish val = true
    · have he : jsToString val = .error "TypeError" := (jsToString_error_iff val).mpr hv
      simp [packFormData, he, hv]
    · have hv' : isNullish val = false := by simpa using hv
      have hok : ∃ s, jsToString val = .ok s := by
        cases val <;> simp [isNullish] at hv' ⊢ <;> simp [jsToString]
      obtain ⟨s, hs⟩ := hok
      rcases hrest : packFormData tl with e | l
      · have := (packFormData_error_iff tl)
        rw [hrest] at this
        simp only [packFormData, hs, hrest, hv', Bool.false_or]
        simpa using this
      · have := (packFormData_error_iff tl)
        rw [hrest] at this
        simp only [packFormData, hs, hrest, hv', Bool.false_or]
        simpa using this

lemma packFormData_ok : ∀ json : JSFields, hasNullish json = false →
    ∃ entries, packFormData json = .ok entries
  | .nil => fun _ => ⟨[], rfl⟩
  | .cons key val tl => by
    intro h
    rw [hasNullish, Bool.or_eq_false_iff] at h
    have hok : ∃ s, jsToString val = .ok s := by
      have hv' := h.1
      cases val <;> simp [isNullish] at hv' ⊢ <;> simp [jsToString]
    obtain ⟨s, hs⟩ := hok
    obtain ⟨rest, hrest⟩ := packFormData_ok tl h.2
    exact ⟨(key, s) :: rest, by simp [packFormData, hs, hrest]⟩

/-- C10: `packFormData` calls `toString` on every value with no guard:
it throws a `TypeError` — returning no form carrier — exactly when some
field binds `null` or `undefined`; when every value is non-nullish it
returns the carrier (and, the documented no-validation behaviour, a
nested plain object stringifies to `[object Object]`). -/
theorem packFormData_spec (json : JSFields) :
    (packFormData json = .error "TypeError" ↔ hasNullish json = true)
    ∧ (hasNullish json = false → ∃ entries, packFormData json = .ok entries)
    ∧ (∀ fields : JSFields, jsToString (.obj fields) = .ok "[object Object]") :=
  ⟨packFormData_error_iff json, packFormData_ok json, fun _ => rfl⟩

/-- Witness for C10: a record with a null value throws, one without
succeeds. -/
theorem packFormData_spec_witness :
    packFormData (.cons "a" JSVal.null .nil) = .error "TypeError"
    ∧ ∃ entries, packFormData (.cons "b" (JSVal.num 1) .nil) = .ok entries :=
  ⟨(packFormData_spec (.cons "a" JSVal.null .nil)).1.mpr rfl,
    (packFormData_spec (.cons "b" (JSVal.num 1) .nil)).2.1 rfl⟩

end BLTH
